import Mathlib

/-!
# haas-cli: the interactive automation loop of `runCreateAndStartInstance`

A shallow embedding of `src/main.go`.  A Go `string` is a sequence of bytes; it is
modelled as a `List Char` in which the byte `b` is the character with code `b`
(every phrase the program looks for is ASCII, and the program only ever compares
bytes for equality).
-/

namespace HaasCli

/-- A Go string, one list element per byte. -/
abbrev GoString := List Char

/-- Go `strings.Contains(s, substr)`: `substr` occurs in `s` as a contiguous run of bytes. -/
def Contains : GoString → GoString → Bool
  | [], substr => substr.isPrefixOf []
  | c :: cs, substr => substr.isPrefixOf (c :: cs) || Contains cs substr

/-- Go `strings.Split(s, sep)` for a one-byte separator: the pieces of `s` between
consecutive occurrences of `sep` (one more piece than there are separators). -/
def Split : GoString → Char → List GoString
  | [], _ => [[]]
  | c :: cs, sep =>
    if c = sep then [] :: Split cs sep
    else
      match Split cs sep with
      | [] => [[c]]
      | w :: ws => (c :: w) :: ws

def fetchingPhrase : GoString := "Fetching data of".toList
def percentPhrase : GoString := "100%".toList
def deployPrompt : GoString := "Deploy on this node ?".toList
def yourInstancePhrase : GoString := "Your instance".toList
def deployedPhrase : GoString := "has been deployed on aleph.im".toList
def anchorWord : GoString := "instance".toList


/-- The blank confirmation line written by the progress-complete rule: Go `"\r\n"`. -/
def blankLine : GoString := ['\r', '\n']
/-- The answer written by the confirmation-prompt rule: Go `"y\n"`. -/
def yesAnswer : GoString := ['y', '\n']

/-- The three `if` blocks of the read loop, in source order. -/
inductive Rule
  | progressComplete
  | confirmationPrompt
  | success
  deriving DecidableEq, Repr

/-- The `bufio.Writer` around the child's stdin pipe, as far as the program can
observe it: `attempts` are the payloads handed to `WriteString`/`Flush`, oldest
first; `delivered` are those that reached the pipe; `failed` is the writer's sticky
error, set by the first write that finds the pipe closed. -/
structure Writer where
  failed : Bool
  attempts : List GoString
  delivered : List GoString
  deriving DecidableEq, Repr

/-- Go `writer.WriteString(s); writer.Flush()` with both results discarded, as the
source does.  `pipeOpen k` tells whether the pipe is still open when the injection
number `k` (counting from 0) is flushed. -/
def Writer.send (pipeOpen : Nat → Bool) (w : Writer) (s : GoString) : Writer :=
  if w.failed then
    { w with attempts := w.attempts ++ [s] }
  else if pipeOpen w.attempts.length then
    { w with attempts := w.attempts ++ [s], delivered := w.delivered ++ [s] }
  else
    { w with failed := true, attempts := w.attempts ++ [s] }

/-- The local variables of the read loop: `line`, `vmHash`, the stdin writer, and
`fired`, the trace of rules whose block was entered (the `Debug:` lines that the
verbose mode prints), oldest first. -/
structure LoopState where
  line : GoString
  vmHash : GoString
  writer : Writer
  fired : List Rule
  deriving DecidableEq, Repr

/-- State on entry to the loop: `line := ""`, `var vmHash string`, a fresh writer. -/
def LoopState.init : LoopState :=
  { line := [], vmHash := [], writer := { failed := false, attempts := [], delivered := [] },
    fired := [] }

/-- Condition of the first `if`: the node list is fully loaded. -/
def progressRule (line : GoString) : Bool :=
  Contains line fetchingPhrase && Contains line percentPhrase

/-- Condition of the second `if`: the deployment prompt. -/
def confirmRule (line : GoString) : Bool :=
  Contains line deployPrompt

/-- Condition of the third `if`: the success message. -/
def successRule (line : GoString) : Bool :=
  Contains line yourInstancePhrase && Contains line deployedPhrase

/-- The `for i, part := range parts` loop: the part after the first part that equals
`"instance"` and is not the last one (`part == "instance" && i+1 < len(parts)`). -/
def scanParts : List GoString → Option GoString
  | [] => none
  | [_] => none
  | part :: next :: rest =>
    if part = anchorWord then some next else scanParts (next :: rest)

/-- What the success block assigns to `vmHash`, if anything. -/
def extractVmHash (line : GoString) : Option GoString :=
  scanParts (Split line ' ')

/-- Body of the first `if` (the sleep has no effect on the state). -/
def progressAction (pipeOpen : Nat → Bool) (st : LoopState) : LoopState :=
  { st with writer := st.writer.send pipeOpen blankLine, line := [],
            fired := st.fired ++ [Rule.progressComplete] }

/-- Body of the second `if`. -/
def confirmAction (pipeOpen : Nat → Bool) (st : LoopState) : LoopState :=
  { st with writer := st.writer.send pipeOpen yesAnswer, line := [],
            fired := st.fired ++ [Rule.confirmationPrompt] }

/-- Body of the third `if`. -/
def successAction (st : LoopState) : LoopState :=
  { st with vmHash := (extractVmHash st.line).getD st.vmHash, line := [],
            fired := st.fired ++ [Rule.success] }

/-- Body of `if n > 0 { ... }` for the chunk `string(buf[:n])`: append, then the three
`if` blocks one after the other. -/
def onChunk (pipeOpen : Nat → Bool) (st : LoopState) (chunk : GoString) : LoopState :=
  let st1 := { st with line := st.line ++ chunk }
  let st2 := if progressRule st1.line then progressAction pipeOpen st1 else st1
  let st3 := if confirmRule st2.line then confirmAction pipeOpen st2 else st2
  if successRule st3.line then successAction st3 else st3

/-- The loop over successful reads.  `buf` has length 1, so a read that returns no
error yields one byte (`some b`) or nothing (`none`, `n = 0`). -/
def readLoop (pipeOpen : Nat → Bool) (st : LoopState) : List (Option Char) → LoopState
  | [] => st
  | some b :: rs => readLoop pipeOpen (onChunk pipeOpen st [b]) rs
  | none :: rs => readLoop pipeOpen st rs

/-- The read loop on a run of one-byte reads. -/
def feedBytes (pipeOpen : Nat → Bool) (st : LoopState) (bytes : GoString) : LoopState :=
  readLoop pipeOpen st (bytes.map some)

/-- How the child's output stream ends: `io.EOF`, or another read error. -/
inductive ReadEnd
  | eof
  | failure
  deriving DecidableEq, Repr

/-- The child process as the loop sees it: the successful reads in order, how the
stream ends, the exit status reported by `cmd.Wait()`, and the state of its stdin. -/
structure Child where
  reads : List (Option Char)
  ending : ReadEnd
  exitStatus : Nat
  stdinOpen : Nat → Bool

/-- Everything the function does before the loop: the two installation probes, the
two pipes, and `cmd.Start()`. -/
structure Env where
  alephInstalled : Bool
  sevctlInstalled : Bool
  stdinPipeOk : Bool
  stdoutPipeOk : Bool
  startOk : Bool
  deriving DecidableEq, Repr

/-- The errors `runCreateAndStartInstance` returns, one per `return` statement. -/
inductive RunError
  | alephNotInstalled
  | sevctlNotInstalled
  | stdinPipe
  | stdoutPipe
  | startFailed
  | readError
  | commandFailed
  | vmHashMissing
  deriving DecidableEq, Repr

/-- The bytes the child wrote, in order. -/
def Child.output (child : Child) : GoString :=
  child.reads.filterMap id

/-- The function `runCreateAndStartInstance`: the returned error (`none` is `nil`) and the final
loop state. -/
def runCreateAndStartInstance (env : Env) (child : Child) : Option RunError × LoopState :=
  if !env.alephInstalled then (some RunError.alephNotInstalled, LoopState.init)
  else if !env.sevctlInstalled then (some RunError.sevctlNotInstalled, LoopState.init)
  else if !env.stdinPipeOk then (some RunError.stdinPipe, LoopState.init)
  else if !env.stdoutPipeOk then (some RunError.stdoutPipe, LoopState.init)
  else if !env.startOk then (some RunError.startFailed, LoopState.init)
  else
    let st := readLoop child.stdinOpen LoopState.init child.reads
    match child.ending with
    | ReadEnd.failure => (some RunError.readError, st)
    | ReadEnd.eof =>
      if child.exitStatus ≠ 0 then (some RunError.commandFailed, st)
      else if st.vmHash = [] then (some RunError.vmHashMissing, st)
      else (none, st)

/-- An environment in which the probes, the pipes and the start all succeed. -/
def Env.ready : Env :=
  { alephInstalled := true, sevctlInstalled := true, stdinPipeOk := true,
    stdoutPipeOk := true, startOk := true }

/-- Result of one external command run through the shell session: its captured
output and whether it returned an error. -/
structure CmdResult where
  out : GoString
  failed : Bool
  deriving DecidableEq, Repr

/-- The errors `runAlephCommand` returns. -/
inductive AlephError
  | createFailed
  | createUnexpected
  | listFailed
  | unexpectedFormat
  deriving DecidableEq, Repr

def privateKeyLabel : GoString := "Private key".toList
def addressLabel : GoString := "Address:".toList
def totalSizeLabel : GoString := "Total Size:".toList

/-- The function `runAlephCommand`, given the results of `aleph account create` and of
`aleph file list`. -/
def runAlephCommand (create list : CmdResult) : Option AlephError :=
  if create.failed then some AlephError.createFailed
  else if !Contains create.out privateKeyLabel then some AlephError.createUnexpected
  else if list.failed then some AlephError.listFailed
  else if !Contains list.out addressLabel || !Contains list.out totalSizeLabel then
    some AlephError.unexpectedFormat
  else none

/-- Go `unicode.IsSpace` on the ASCII range. -/
def isSpaceByte (c : Char) : Bool :=
  c = ' ' || c = '\t' || c = '\n' || c = '\r' || c = Char.ofNat 11 || c = Char.ofNat 12

/-- Whitespace-delimited fields in the sense of the specification: the maximal runs
of non-whitespace bytes.  `cur` is the field being read, reversed. -/
def specFieldsAux : GoString → GoString → List GoString
  | [], cur => if cur = [] then [] else [cur.reverse]
  | c :: cs, cur =>
    if isSpaceByte c then
      (if cur = [] then specFieldsAux cs [] else cur.reverse :: specFieldsAux cs [])
    else specFieldsAux cs (c :: cur)

/-- The extractor as the specification words it: split into whitespace-delimited
fields and return the field right after the anchor word, not-found when the anchor
word is absent or is the last field. -/
def specExtract (text : GoString) : Option GoString :=
  let fields := specFieldsAux text []
  match fields.indexOf? anchorWord with
  | none => none
  | some i => fields.get? (i + 1)

/-- The end-to-end example output of the specification, without line terminators. -/
def scenarioOutput : GoString :=
  "Fetching data of nodes... 100%Deploy on this node ?Your instance xyz789 has been deployed on aleph.im".toList

/-- The same output with each of the three texts on a line of its own. -/
def scenarioLines : GoString :=
  "Fetching data of nodes... 100%\nDeploy on this node ?\nYour instance xyz789 has been deployed on aleph.im\n".toList

/-- A child that writes `out` one byte per read, then closes its output. -/
def Child.emitting (out : GoString) (exitStatus : Nat) (stdinOpen : Nat → Bool) : Child :=
  { reads := out.map some, ending := ReadEnd.eof, exitStatus := exitStatus,
    stdinOpen := stdinOpen }

/-- The rule selected by trying the three conditions top to bottom: the first one
that the buffer satisfies, if any. -/
def firstMatch (line : GoString) : Option Rule :=
  if progressRule line then some Rule.progressComplete
  else if confirmRule line then some Rule.confirmationPrompt
  else if successRule line then some Rule.success
  else none

/-- The block of the source that belongs to a rule. -/
def Rule.action (pipeOpen : Nat → Bool) : Rule → LoopState → LoopState
  | Rule.progressComplete => progressAction pipeOpen
  | Rule.confirmationPrompt => confirmAction pipeOpen
  | Rule.success => successAction

/-- The observable part of the loop state that does not describe the stdin pipe. -/
def LoopState.agree (a b : LoopState) : Prop :=
  a.line = b.line ∧ a.vmHash = b.vmHash ∧ a.fired = b.fired ∧
    a.writer.attempts = b.writer.attempts

/-- The loop on output that the child writes in chunks of any length: `buf` is
`make([]byte, 1)`, so every `Read` takes the next single byte of the pending chunk
and the loop body runs once per byte. -/
def feedChunks (pipeOpen : Nat → Bool) (st : LoopState) : List GoString → LoopState
  | [] => st
  | chunk :: rest => feedChunks pipeOpen (feedBytes pipeOpen st chunk) rest

/-- The text of the specification example with a tab after the anchor word. -/
def tabbedSuccess : GoString := "Your instance\tabc has been deployed on aleph.im".toList

/-- The text of the specification example with two spaces after the anchor word. -/
def spacedSuccess : GoString := "Your instance  abc has been deployed on aleph.im".toList

/-- The specification example of a success line without the anchor word. -/
def instancesLine : GoString := "Your instances abc has been deployed on aleph.im".toList

/-- An earlier output line that has `instance` as a piece, followed by the success
line without the anchor word. -/
def strayAnchorOutput : GoString := "instance zzz\n".toList ++ instancesLine

/-- The same earlier line followed by a well-formed success line for the token `abc`. -/
def strayAnchorSuccess : GoString :=
  "instance zzz\nYour instance abc has been deployed on aleph.im".toList

/-- The success message of the automated tool for the token `t`. -/
def successLine (t : GoString) : GoString :=
  "Your instance ".toList ++ t ++ " has been deployed on aleph.im".toList

/-- The part of the success message before the token. -/
def successLead : GoString := "Your instance ".toList

/-- The success phrase without its last byte. -/
def deployedShort : GoString := "has been deployed on aleph.i".toList

/-! ## Basic facts -/

theorem contains_iff_occurs (s substr : GoString) :
    Contains s substr = true ↔ substr <:+: s := by
  induction s with
  | nil =>
    cases substr <;> simp [Contains, List.isPrefixOf]
  | cons c cs ih =>
    rw [Contains, Bool.or_eq_true, ih, List.infix_cons_iff, List.isPrefixOf_iff_prefix]

theorem contains_eq_false_iff (s substr : GoString) :
    Contains s substr = false ↔ ¬ substr <:+: s := by
  rw [← contains_iff_occurs]; simp

theorem confirmRule_nil : confirmRule [] = false := by decide

theorem successRule_nil : successRule [] = false := by decide

theorem progressRule_nil : progressRule [] = false := by decide

theorem feedBytes_nil (pipeOpen : Nat → Bool) (st : LoopState) :
    feedBytes pipeOpen st [] = st := rfl

theorem feedBytes_cons (pipeOpen : Nat → Bool) (st : LoopState) (b : Char) (bs : GoString) :
    feedBytes pipeOpen st (b :: bs) = feedBytes pipeOpen (onChunk pipeOpen st [b]) bs := rfl

theorem feedBytes_append (pipeOpen : Nat → Bool) (st : LoopState) (xs ys : GoString) :
    feedBytes pipeOpen st (xs ++ ys) = feedBytes pipeOpen (feedBytes pipeOpen st xs) ys := by
  induction xs generalizing st with
  | nil => rfl
  | cons x xs ih => simp only [List.cons_append, feedBytes_cons, ih]

theorem feedBytes_snoc (pipeOpen : Nat → Bool) (st : LoopState) (xs : GoString) (b : Char) :
    feedBytes pipeOpen st (xs ++ [b]) = onChunk pipeOpen (feedBytes pipeOpen st xs) [b] := by
  rw [feedBytes_append]; rfl

/-- One chunk is handled by the first rule its buffer satisfies, or by none. -/
theorem onChunk_eq_firstMatch (pipeOpen : Nat → Bool) (st : LoopState) (chunk : GoString) :
    onChunk pipeOpen st chunk =
      match firstMatch (st.line ++ chunk) with
      | none => { st with line := st.line ++ chunk }
      | some r => r.action pipeOpen { st with line := st.line ++ chunk } := by
  unfold onChunk firstMatch
  by_cases h1 : progressRule (st.line ++ chunk) = true
  · simp [h1, progressAction, confirmRule_nil, successRule_nil, Rule.action]
  · by_cases h2 : confirmRule (st.line ++ chunk) = true
    · simp [h1, h2, confirmAction, successRule_nil, Rule.action]
    · by_cases h3 : successRule (st.line ++ chunk) = true
      · simp [h1, h2, h3, Rule.action]
      · simp [h1, h2, h3]

theorem firstMatch_eq_none_iff (line : GoString) :
    firstMatch line = none ↔
      progressRule line = false ∧ confirmRule line = false ∧ successRule line = false := by
  unfold firstMatch
  by_cases h1 : progressRule line = true <;> by_cases h2 : confirmRule line = true <;>
    by_cases h3 : successRule line = true <;> simp [h1, h2, h3]

theorem action_line (pipeOpen : Nat → Bool) (r : Rule) (st : LoopState) :
    (r.action pipeOpen st).line = [] := by
  cases r <;> rfl

theorem action_fired (pipeOpen : Nat → Bool) (r : Rule) (st : LoopState) :
    (r.action pipeOpen st).fired = st.fired ++ [r] := by
  cases r <;> rfl

theorem send_attempts (pipeOpen : Nat → Bool) (w : Writer) (s : GoString) :
    (w.send pipeOpen s).attempts = w.attempts ++ [s] := by
  unfold Writer.send
  split
  · rfl
  · split <;> rfl

theorem action_attempts_le (pipeOpen : Nat → Bool) (r : Rule) (st : LoopState) :
    (r.action pipeOpen st).writer.attempts.length ≤ st.writer.attempts.length + 1 := by
  cases r <;> simp [Rule.action, progressAction, confirmAction, successAction, send_attempts]

/-- After any chunk the buffer satisfies none of the three conditions. -/
theorem onChunk_quiet (pipeOpen : Nat → Bool) (st : LoopState) (chunk : GoString) :
    firstMatch (onChunk pipeOpen st chunk).line = none := by
  rw [onChunk_eq_firstMatch]
  cases h : firstMatch (st.line ++ chunk) with
  | none => simpa using h
  | some r => simp only [action_line]; decide

/-- A chunk either only extends the buffer or adds one entry to the trace. -/
theorem onChunk_fired (pipeOpen : Nat → Bool) (st : LoopState) (chunk : GoString) :
    (onChunk pipeOpen st chunk).fired = st.fired ++ (firstMatch (st.line ++ chunk)).toList := by
  rw [onChunk_eq_firstMatch]
  cases h : firstMatch (st.line ++ chunk) with
  | none => simp
  | some r => simp [action_fired]

theorem onChunk_agree (p q : Nat → Bool) (a b : LoopState) (chunk : GoString)
    (h : a.agree b) : (onChunk p a chunk).agree (onChunk q b chunk) := by
  obtain ⟨hl, hv, hf, hw⟩ := h
  rw [onChunk_eq_firstMatch, onChunk_eq_firstMatch, hl]
  cases firstMatch (b.line ++ chunk) with
  | none => exact ⟨by simp [hl], hv, hf, hw⟩
  | some r =>
    cases r <;>
      simp [Rule.action, progressAction, confirmAction, successAction, LoopState.agree,
        send_attempts, hl, hv, hf, hw]

theorem readLoop_agree (p q : Nat → Bool) (reads : List (Option Char)) (a b : LoopState)
    (h : a.agree b) : (readLoop p a reads).agree (readLoop q b reads) := by
  induction reads generalizing a b with
  | nil => exact h
  | cons r rs ih =>
    cases r with
    | none => exact ih a b h
    | some c => exact ih _ _ (onChunk_agree p q a b [c] h)

/-! ## The claims -/

/-- C4: when the output stream ends with end-of-file and the child's exit status is
not zero, the function returns the "command failed" error, whatever the output was
and whatever was extracted from it. -/
theorem C4_exit_failure_wins (env : Env) (child : Child) (hready : env = Env.ready)
    (heof : child.ending = ReadEnd.eof) (hexit : child.exitStatus ≠ 0) :
    (runCreateAndStartInstance env child).1 = some RunError.commandFailed := by
  subst hready
  simp [runCreateAndStartInstance, Env.ready, heof, hexit]

theorem C4_exit_failure_wins_witness :
    (runCreateAndStartInstance Env.ready (Child.emitting scenarioOutput 3 (fun _ => true))).1
        = some RunError.commandFailed ∧
      (runCreateAndStartInstance Env.ready
        (Child.emitting scenarioOutput 3 (fun _ => true))).2.vmHash = "xyz789".toList :=
  ⟨C4_exit_failure_wins Env.ready (Child.emitting scenarioOutput 3 (fun _ => true)) rfl rfl
    (by decide), by decide!⟩

/-- C8: once the account was created and `aleph file list` ran without error,
`runAlephCommand` returns the unexpected-output-format error exactly when the
listing lacks `Address:` or lacks `Total Size:`, and returns no error otherwise. -/
theorem C8_file_list_format (create list : CmdResult) (hcreate : create.failed = false)
    (hkey : privateKeyLabel <:+: create.out) (hlist : list.failed = false) :
    (runAlephCommand create list = some AlephError.unexpectedFormat ↔
        (¬ addressLabel <:+: list.out ∨ ¬ totalSizeLabel <:+: list.out)) ∧
      (¬ (¬ addressLabel <:+: list.out ∨ ¬ totalSizeLabel <:+: list.out) →
        runAlephCommand create list = none) := by
  rw [← contains_iff_occurs] at hkey
  rw [← contains_iff_occurs, ← contains_iff_occurs]
  unfold runAlephCommand
  cases ha : Contains list.out addressLabel <;>
    cases ht : Contains list.out totalSizeLabel <;>
    simp [hcreate, hkey, hlist]

theorem C8_file_list_format_witness :
    runAlephCommand ⟨"Private key: x".toList, false⟩ ⟨"Address: a".toList, false⟩
      = some AlephError.unexpectedFormat :=
  (C8_file_list_format ⟨"Private key: x".toList, false⟩ ⟨"Address: a".toList, false⟩ rfl
    (by decide) rfl).1.2 (Or.inr (by decide))

/-- C9: one read event runs the block of at most one rule, namely of the first rule
in source order whose condition holds for the buffer with the new byte appended, and
so it hands at most one response to the stdin writer. -/
theorem C9_first_rule_only (pipeOpen : Nat → Bool) (st : LoopState) (b : Char) :
    (onChunk pipeOpen st [b] =
        match firstMatch (st.line ++ [b]) with
        | none => { st with line := st.line ++ [b] }
        | some r => r.action pipeOpen { st with line := st.line ++ [b] }) ∧
      (onChunk pipeOpen st [b]).fired = st.fired ++ (firstMatch (st.line ++ [b])).toList ∧
      (onChunk pipeOpen st [b]).writer.attempts.length ≤ st.writer.attempts.length + 1 := by
  refine ⟨onChunk_eq_firstMatch pipeOpen st [b], onChunk_fired pipeOpen st [b], ?_⟩
  rw [onChunk_eq_firstMatch]
  cases firstMatch (st.line ++ [b]) with
  | none => simp
  | some r => exact action_attempts_le pipeOpen r _

/-- C10: feeding any bytes to the loop from the initial state, the buffer is empty
right after a read event on which a rule fired, and after every read event the
buffer satisfies none of the three rule conditions. -/
theorem C10_buffer_reset (pipeOpen : Nat → Bool) (pre : GoString) (b : Char) :
    ((feedBytes pipeOpen LoopState.init (pre ++ [b])).fired
          ≠ (feedBytes pipeOpen LoopState.init pre).fired →
        (feedBytes pipeOpen LoopState.init (pre ++ [b])).line = []) ∧
      progressRule (feedBytes pipeOpen LoopState.init (pre ++ [b])).line = false ∧
      confirmRule (feedBytes pipeOpen LoopState.init (pre ++ [b])).line = false ∧
      successRule (feedBytes pipeOpen LoopState.init (pre ++ [b])).line = false := by
  rw [feedBytes_snoc]
  refine ⟨?_, (firstMatch_eq_none_iff _).1 (onChunk_quiet pipeOpen _ [b])⟩
  intro hne
  rw [onChunk_eq_firstMatch]
  rw [onChunk_fired] at hne
  cases hm : firstMatch ((feedBytes pipeOpen LoopState.init pre).line ++ [b]) with
  | none => rw [hm] at hne; simp at hne
  | some r => simp only [action_line]

/-- C5 (as stated, refuted): in the end-to-end scenario the second response that
reaches the child is not the text `yes`. -/
theorem C5_second_response_is_not_yes :
    (runCreateAndStartInstance Env.ready
        (Child.emitting scenarioOutput 0 (fun _ => true))).2.writer.delivered
      ≠ [blankLine, "yes".toList] := by
  decide!

/-- C5 (amended): in the end-to-end scenario with exit status 0 the function returns
no error, the extracted token is `xyz789`, and exactly two responses were written to
the child's stdin: the blank line `\r\n`, then `y\n`.  The same holds when each of
the three texts is terminated by a newline. -/
theorem C5_end_to_end :
    runCreateAndStartInstance Env.ready (Child.emitting scenarioOutput 0 (fun _ => true))
        = (none,
            { line := [], vmHash := "xyz789".toList,
              writer := { failed := false, attempts := [blankLine, yesAnswer],
                          delivered := [blankLine, yesAnswer] },
              fired := [Rule.progressComplete, Rule.confirmationPrompt, Rule.success] }) ∧
      runCreateAndStartInstance Env.ready (Child.emitting scenarioLines 0 (fun _ => true))
        = (none,
            { line := ['\n'], vmHash := "xyz789".toList,
              writer := { failed := false, attempts := [blankLine, yesAnswer],
                          delivered := [blankLine, yesAnswer] },
              fired := [Rule.progressComplete, Rule.confirmationPrompt, Rule.success] }) := by
  constructor <;> decide!

theorem feedChunks_eq_feedBytes (pipeOpen : Nat → Bool) (st : LoopState)
    (chunks : List GoString) :
    feedChunks pipeOpen st chunks = feedBytes pipeOpen st chunks.flatten := by
  induction chunks generalizing st with
  | nil => rfl
  | cons c cs ih => rw [feedChunks, ih, List.flatten_cons, feedBytes_append]

theorem readLoop_eq_feedBytes (pipeOpen : Nat → Bool) (st : LoopState)
    (reads : List (Option Char)) :
    readLoop pipeOpen st reads = feedBytes pipeOpen st (reads.filterMap id) := by
  induction reads generalizing st with
  | nil => rfl
  | cons r rs ih =>
    cases r with
    | none => rw [readLoop, ih]; rfl
    | some b => rw [readLoop, ih]; rfl

theorem flatten_singletons (out : GoString) : (out.map fun b => [b]).flatten = out := by
  induction out with
  | nil => rfl
  | cons b bs ih => simp [ih]

/-- C6: the loop reads through a one-byte buffer, so the output fed one byte at a
time and the same output fed all at once as a single chunk leave the loop in the
same state and fire the same rules in the same order; the same holds for every
other chunking, and for empty reads in between: only the byte sequence matters. -/
theorem C6_chunking_independent (pipeOpen : Nat → Bool) (st : LoopState) (out : GoString)
    (chunks : List GoString) (reads : List (Option Char)) :
    feedChunks pipeOpen st (out.map fun b => [b]) = feedChunks pipeOpen st [out] ∧
      (feedChunks pipeOpen st (out.map fun b => [b])).fired
        = (feedChunks pipeOpen st [out]).fired ∧
      feedChunks pipeOpen st chunks = feedBytes pipeOpen st chunks.flatten ∧
      readLoop pipeOpen st reads = feedBytes pipeOpen st (reads.filterMap id) := by
  have h : feedChunks pipeOpen st (out.map fun b => [b]) = feedChunks pipeOpen st [out] := by
    rw [feedChunks_eq_feedBytes, feedChunks_eq_feedBytes, flatten_singletons]
    simp
  exact ⟨h, by rw [h], feedChunks_eq_feedBytes pipeOpen st chunks,
    readLoop_eq_feedBytes pipeOpen st reads⟩

/-- C7 (as stated, refuted): with the child's stdin closed from the start both
injected writes fail, yet the function reports no error at all and the rules keep
being evaluated on the later output: the confirmation rule and the success rule
still fire and the token is still extracted. -/
theorem C7_failed_write_is_ignored :
    runCreateAndStartInstance Env.ready (Child.emitting scenarioOutput 0 (fun _ => false))
      = (none,
          { line := [], vmHash := "xyz789".toList,
            writer := { failed := true, attempts := [blankLine, yesAnswer], delivered := [] },
            fired := [Rule.progressComplete, Rule.confirmationPrompt, Rule.success] }) := by
  decide!

/-- C7 (amended): the results of the writes to the child's stdin are discarded; the
returned error, the extracted token, the buffer, the rules fired and the responses
handed to the writer are the same whether or not the stdin pipe is closed. -/
theorem C7_stdin_state_is_unobserved (env : Env) (child : Child) (pipeOpen : Nat → Bool) :
    (runCreateAndStartInstance env { child with stdinOpen := pipeOpen }).1
        = (runCreateAndStartInstance env child).1 ∧
      ((runCreateAndStartInstance env { child with stdinOpen := pipeOpen }).2).agree
        (runCreateAndStartInstance env child).2 := by
  have hinit : LoopState.init.agree LoopState.init := ⟨rfl, rfl, rfl, rfl⟩
  have h := readLoop_agree pipeOpen child.stdinOpen child.reads _ _ hinit
  unfold runCreateAndStartInstance
  by_cases h1 : env.alephInstalled = true <;> simp only [h1] <;> try exact ⟨rfl, hinit⟩
  by_cases h2 : env.sevctlInstalled = true <;> simp only [h2] <;> try exact ⟨rfl, hinit⟩
  by_cases h3 : env.stdinPipeOk = true <;> simp only [h3] <;> try exact ⟨rfl, hinit⟩
  by_cases h4 : env.stdoutPipeOk = true <;> simp only [h4] <;> try exact ⟨rfl, hinit⟩
  by_cases h5 : env.startOk = true <;> simp only [h5] <;> try exact ⟨rfl, hinit⟩
  simp only [Bool.not_true, Bool.false_eq_true, if_false]
  cases child.ending with
  | failure => exact ⟨rfl, h⟩
  | eof =>
    dsimp only
    rw [h.2.1]
    split_ifs <;> exact ⟨rfl, h⟩

theorem split_ne_nil (s : GoString) (sep : Char) : Split s sep ≠ [] := by
  induction s with
  | nil => simp [Split]
  | cons c cs ih =>
    rw [Split]
    split
    · simp
    · split <;> simp

theorem split_no_sep (s : GoString) (sep : Char) : ∀ f ∈ Split s sep, sep ∉ f := by
  induction s with
  | nil => simp [Split]
  | cons c cs ih =>
    rw [Split]
    split
    · intro f hf
      rcases List.mem_cons.1 hf with h | h
      · simp [h]
      · exact ih f h
    · rename_i hc
      cases hs : Split cs sep with
      | nil => exact absurd hs (split_ne_nil cs sep)
      | cons w ws =>
        rw [hs] at ih
        intro f hf
        rcases List.mem_cons.1 hf with h | h
        · subst h
          intro hmem
          rcases List.mem_cons.1 hmem with h' | h'
          · exact hc h'.symm
          · exact ih w (List.mem_cons_self _ _) h'
        · exact ih f (List.mem_cons_of_mem _ h)

theorem intercalate_cons_cons (sep x y : GoString) (ys : List GoString) :
    sep.intercalate (x :: y :: ys) = x ++ sep ++ sep.intercalate (y :: ys) := by
  simp [List.intercalate, List.intersperse]

theorem split_intercalate (s : GoString) (sep : Char) :
    [sep].intercalate (Split s sep) = s := by
  induction s with
  | nil => simp [Split, List.intercalate]
  | cons c cs ih =>
    rw [Split]
    cases hs : Split cs sep with
    | nil => exact absurd hs (split_ne_nil cs sep)
    | cons w ws =>
      rw [hs] at ih
      split
      · rename_i hc
        rw [intercalate_cons_cons, ih, hc]
        rfl
      · cases ws with
        | nil =>
          simp only [List.intercalate, List.intersperse] at ih ⊢
          simpa using ih
        | cons v vs =>
          rw [intercalate_cons_cons] at ih ⊢
          simp [← ih]

theorem scanParts_eq_some_iff (parts : List GoString) (h : GoString) :
    scanParts parts = some h ↔
      ∃ pre post, parts = pre ++ anchorWord :: h :: post ∧ anchorWord ∉ pre := by
  induction parts with
  | nil => simp [scanParts]
  | cons p tl ih =>
    cases tl with
    | nil =>
      simp only [scanParts]
      refine ⟨fun hh => (by cases hh), ?_⟩
      rintro ⟨pre, post, heq, -⟩
      have := congrArg List.length heq
      simp at this
      omega
    | cons next rest =>
      rw [scanParts]
      by_cases hp : p = anchorWord
      · simp only [hp, if_true, Option.some.injEq]
        constructor
        · intro hh
          exact ⟨[], rest, by simp [hh], by simp⟩
        · rintro ⟨pre, post, heq, hpre⟩
          cases pre with
          | nil => simp at heq; exact heq.1
          | cons q qs =>
            simp at heq
            exact absurd ((heq.1 ▸ List.mem_cons_self _ _) : anchorWord ∈ q :: qs) hpre
      · simp only [hp, if_false]
        rw [ih]
        constructor
        · rintro ⟨pre, post, heq, hpre⟩
          refine ⟨p :: pre, post, by simp [heq], ?_⟩
          intro hmem
          rcases List.mem_cons.1 hmem with h' | h'
          · exact hp h'.symm
          · exact hpre h'
        · rintro ⟨pre, post, heq, hpre⟩
          cases pre with
          | nil => simp at heq; exact absurd heq.1 hp
          | cons q qs =>
            simp at heq
            exact ⟨qs, post, heq.2, fun hm => hpre (List.mem_cons_of_mem _ hm)⟩

theorem scanParts_eq_none_iff (parts : List GoString) :
    scanParts parts = none ↔ anchorWord ∉ parts.dropLast := by
  induction parts with
  | nil => simp [scanParts]
  | cons p tl ih =>
    cases tl with
    | nil => simp [scanParts]
    | cons next rest =>
      rw [scanParts]
      by_cases hp : p = anchorWord
      · simp [hp]
      · simp only [hp, if_false, ih, List.dropLast_cons₂, List.mem_cons, not_or]
        constructor
        · intro h
          exact ⟨fun h' => hp h'.symm, h⟩
        · intro h
          exact h.2

/-- C2 (as stated, refuted): with a tab after the anchor word the success rule fires
and the whitespace-delimited field after `instance` is `abc`, but the code assigns
nothing; with two spaces after the anchor word the code assigns the empty string. -/
theorem C2_whitespace_fields_fail :
    (successRule tabbedSuccess = true ∧ specExtract tabbedSuccess = some "abc".toList ∧
        extractVmHash tabbedSuccess = none) ∧
      (successRule spacedSuccess = true ∧ specExtract spacedSuccess = some "abc".toList ∧
        extractVmHash spacedSuccess = some []) := by
  decide!

/-- C2 (amended): the success block splits the buffer at every single space byte
(the pieces contain no space and joining them with one space gives the buffer back,
so a run of spaces yields empty pieces and tabs or newlines separate nothing); it
assigns to `vmHash` the piece right after the first piece that equals `instance`
and is not the last piece, and leaves `vmHash` unchanged exactly when no piece other
than the last equals `instance`. -/
theorem C2_extract_space_pieces (st : LoopState) :
    (∀ f ∈ Split st.line ' ', ' ' ∉ f) ∧
      [' '].intercalate (Split st.line ' ') = st.line ∧
      (∀ h, extractVmHash st.line = some h ↔
        ∃ pre post, Split st.line ' ' = pre ++ anchorWord :: h :: post ∧ anchorWord ∉ pre) ∧
      (extractVmHash st.line = none ↔ anchorWord ∉ (Split st.line ' ').dropLast) ∧
      (∀ h, extractVmHash st.line = some h → (successAction st).vmHash = h) ∧
      (extractVmHash st.line = none → (successAction st).vmHash = st.vmHash) := by
  refine ⟨split_no_sep _ _, split_intercalate _ _, fun h => scanParts_eq_some_iff _ h,
    scanParts_eq_none_iff _, ?_, ?_⟩
  · intro h hh
    simp [successAction, hh]
  · intro hh
    simp [successAction, hh]

theorem firstMatch_success {line : GoString} (h : firstMatch line = some Rule.success) :
    successRule line = true := by
  unfold firstMatch at h
  split_ifs at h <;> first | assumption | cases h

theorem scanParts_of_not_mem {parts : List GoString} (h : anchorWord ∉ parts) :
    scanParts parts = none :=
  (scanParts_eq_none_iff parts).2 fun hm => h (List.mem_of_mem_dropLast hm)

/-- One byte keeps the buffer a suffix of the output consumed so far, and keeps the
token slot empty when the buffer has no piece `instance` whenever it is
success-shaped. -/
theorem onChunk_keeps_empty (pipeOpen : Nat → Bool) (st : LoopState) (b : Char)
    (consumed : GoString) (hsuf : st.line <:+ consumed) (hv : st.vmHash = [])
    (hfree : successRule (st.line ++ [b]) = true → anchorWord ∉ Split (st.line ++ [b]) ' ') :
    (onChunk pipeOpen st [b]).line <:+ consumed ++ [b] ∧
      (onChunk pipeOpen st [b]).vmHash = [] := by
  rw [onChunk_eq_firstMatch]
  cases hm : firstMatch (st.line ++ [b]) with
  | none =>
    refine ⟨?_, hv⟩
    obtain ⟨u, hu⟩ := hsuf
    exact ⟨u, by simp [← hu]⟩
  | some r =>
    refine ⟨by rw [action_line]; exact List.nil_suffix, ?_⟩
    cases r with
    | progressComplete => exact hv
    | confirmationPrompt => exact hv
    | success =>
      have hnone := scanParts_of_not_mem (hfree (firstMatch_success hm))
      simp [Rule.action, successAction, extractVmHash, hnone, hv]

theorem readLoop_keeps_empty (pipeOpen : Nat → Bool) (reads : List (Option Char))
    (st : LoopState) (consumed : GoString) (hsuf : st.line <:+ consumed)
    (hv : st.vmHash = [])
    (hfree : ∀ s, s <:+: consumed ++ reads.filterMap id → successRule s = true →
      anchorWord ∉ Split s ' ') :
    (readLoop pipeOpen st reads).vmHash = [] := by
  induction reads generalizing st consumed with
  | nil => exact hv
  | cons r rs ih =>
    cases r with
    | none =>
      rw [readLoop]
      exact ih st consumed hsuf hv (by simpa using hfree)
    | some b =>
      rw [readLoop]
      have hinf : st.line ++ [b] <:+: consumed ++ (some b :: rs).filterMap id := by
        obtain ⟨u, hu⟩ := hsuf
        exact ⟨u, rs.filterMap id, by simp [← hu]⟩
      obtain ⟨h1, h2⟩ := onChunk_keeps_empty pipeOpen st b consumed hsuf hv (hfree _ hinf)
      refine ih _ (consumed ++ [b]) h1 h2 ?_
      intro s hs
      exact hfree s (by simpa using hs)

/-- Where nothing is extracted: when no stretch of the child's output that satisfies the
success condition has `instance` as a space-separated piece, the stream ends with
end-of-file and the exit status is 0, the function returns the "failed to get VM
hash from output" error. -/
theorem vmHash_missing_without_anchor (env : Env) (child : Child) (hready : env = Env.ready)
    (heof : child.ending = ReadEnd.eof) (hexit : child.exitStatus = 0)
    (hanchor : ∀ s, s <:+: child.output → successRule s = true →
      anchorWord ∉ Split s ' ') :
    (runCreateAndStartInstance env child).1 = some RunError.vmHashMissing ∧
      (runCreateAndStartInstance env child).2.vmHash = [] := by
  subst hready
  have hv := readLoop_keeps_empty child.stdinOpen child.reads LoopState.init []
    (List.suffix_refl _) rfl (by simpa [Child.output] using hanchor)
  simp [runCreateAndStartInstance, Env.ready, heof, hexit, hv]

/-- C3 (defect in the code): the success line `Your instances abc has been deployed
on aleph.im` has no piece `instance`, and alone it makes the function return the
"failed to get VM hash from output" error; but the buffer is not cleared at a
newline, so when the earlier line `instance zzz` precedes it the success block scans
that line too, takes `zzz\nYour` for the hash and the function returns no error.
With a well-formed success line for `abc` after the same earlier line the hash
reported is `zzz\nYour` as well, not `abc`. -/
theorem C3_stray_anchor_is_extracted :
    anchorWord ∉ Split instancesLine ' ' ∧
      (runCreateAndStartInstance Env.ready
        (Child.emitting instancesLine 0 (fun _ => true))).1 = some RunError.vmHashMissing ∧
      runCreateAndStartInstance Env.ready (Child.emitting strayAnchorOutput 0 (fun _ => true))
        = (none,
            { line := [], vmHash := "zzz\nYour".toList,
              writer := { failed := false, attempts := [], delivered := [] },
              fired := [Rule.success] }) ∧
      (runCreateAndStartInstance Env.ready
        (Child.emitting strayAnchorSuccess 0 (fun _ => true))).2.vmHash
          = "zzz\nYour".toList := by
  refine ⟨?_, ?_, ?_, ?_⟩ <;> decide!

/-- A phrase that starts with a byte absent from `lead` cannot begin inside `lead`. -/
theorem infix_skip_lead (n0 : Char) (rest lead tail : GoString) (h0 : n0 ∉ lead)
    (h : n0 :: rest <:+: lead ++ tail) : n0 :: rest <:+: tail := by
  induction lead with
  | nil => simpa using h
  | cons a as ih =>
    rw [List.cons_append, List.infix_cons_iff] at h
    rcases h with h | h
    · rw [List.cons_prefix_cons] at h
      exact absurd (h.1 ▸ List.mem_cons_self _ _) h0
    · exact ih (fun hm => h0 (List.mem_cons_of_mem _ hm)) h

/-- A phrase `w r` (two parts separated by a space) that is a prefix of `ts tail`
(also separated by a space), both first parts free of spaces, matches part by part. -/
theorem prefix_word_align (w r ts tail : GoString) (hw : ' ' ∉ w) (hts : ' ' ∉ ts)
    (h : w ++ ' ' :: r <+: ts ++ ' ' :: tail) : w = ts ∧ r <+: tail := by
  induction w generalizing ts with
  | nil =>
    cases ts with
    | nil => exact ⟨rfl, by simpa using h⟩
    | cons c cs =>
      simp only [List.nil_append, List.cons_append, List.cons_prefix_cons] at h
      exact absurd (h.1 ▸ List.mem_cons_self _ _) hts
  | cons x xs ih =>
    cases ts with
    | nil =>
      simp only [List.nil_append, List.cons_append, List.cons_prefix_cons] at h
      exact absurd (h.1 ▸ List.mem_cons_self _ _) hw
    | cons c cs =>
      simp only [List.cons_append, List.cons_prefix_cons] at h
      obtain ⟨h1, h2⟩ := ih cs (fun hm => hw (List.mem_cons_of_mem _ hm))
        (fun hm => hts (List.mem_cons_of_mem _ hm)) h.2
      exact ⟨by rw [h.1, h1], h2⟩

/-- A phrase with a space in it does not occur in `ts tail` when `ts` has no space,
the phrase does not occur in the tail, and its second part does not start the tail. -/
theorem not_infix_word (w r ts tail : GoString) (hw : ' ' ∉ w) (hts : ' ' ∉ ts)
    (hr : ¬ r <+: tail) (htail : ¬ w ++ ' ' :: r <:+: ' ' :: tail) :
    ¬ w ++ ' ' :: r <:+: ts ++ ' ' :: tail := by
  induction ts with
  | nil => simpa using htail
  | cons c cs ih =>
    intro h
    rw [List.cons_append, List.infix_cons_iff] at h
    rcases h with h | h
    · exact hr (prefix_word_align w r (c :: cs) tail hw hts h).2
    · exact ih (fun hm => hts (List.mem_cons_of_mem _ hm)) h

/-- The three phrases that contain a space do not occur in `lead t tail`. -/
theorem not_infix_template (n0 : Char) (w r lead t tail : GoString) (h0 : n0 ∉ lead)
    (hw : ' ' ∉ n0 :: w) (ht : ' ' ∉ t) (hr : ¬ r <+: tail)
    (htail : ¬ (n0 :: w) ++ ' ' :: r <:+: ' ' :: tail) :
    ¬ (n0 :: w) ++ ' ' :: r <:+: lead ++ t ++ ' ' :: tail := by
  intro h
  rw [List.append_assoc] at h
  exact not_infix_word (n0 :: w) r t tail hw ht hr htail
    (infix_skip_lead n0 (w ++ ' ' :: r) lead _ h0 h)

theorem split_word (w rest : GoString) (hw : ' ' ∉ w) :
    Split (w ++ ' ' :: rest) ' ' = w :: Split rest ' ' := by
  induction w with
  | nil => simp [Split]
  | cons x xs ih =>
    have hx : x ≠ ' ' := fun h => hw (h ▸ List.mem_cons_self _ _)
    rw [List.cons_append, Split, if_neg hx, ih (fun hm => hw (List.mem_cons_of_mem _ hm))]

/-- Bytes after which no rule condition holds only accumulate in the buffer. -/
theorem feedBytes_quiet (pipeOpen : Nat → Bool) (st : LoopState) (bytes : GoString)
    (h : ∀ p, p <+: bytes → firstMatch (st.line ++ p) = none) :
    feedBytes pipeOpen st bytes = { st with line := st.line ++ bytes } := by
  induction bytes generalizing st with
  | nil => simp [feedBytes_nil]
  | cons b bs ih =>
    have hb : firstMatch (st.line ++ [b]) = none :=
      h [b] (by simp [List.cons_prefix_cons])
    rw [feedBytes_cons, onChunk_eq_firstMatch, hb]
    rw [ih]
    · simp
    · intro p hp
      have := h (b :: p) ((List.prefix_cons_inj b).2 hp)
      simpa using this

theorem successLine_eq (t : GoString) :
    successLine t = successLead ++ t ++ ' ' :: deployedPhrase := rfl

theorem successLine_eq_snoc (t : GoString) :
    successLine t = (successLead ++ t ++ ' ' :: deployedShort) ++ ['m'] := by
  rw [successLine_eq]
  have h : deployedPhrase = deployedShort ++ ['m'] := by decide
  rw [h]
  simp

theorem fetching_not_in (t tail : GoString) (ht : ' ' ∉ t)
    (hr : ¬ "data of".toList <+: tail) (htail : ¬ fetchingPhrase <:+: ' ' :: tail) :
    ¬ fetchingPhrase <:+: successLead ++ t ++ ' ' :: tail := by
  have h : fetchingPhrase = ('F' :: "etching".toList) ++ ' ' :: "data of".toList := by decide
  rw [h] at htail ⊢
  exact not_infix_template 'F' _ _ successLead t tail (by decide) (by decide) ht hr htail

theorem prompt_not_in (t tail : GoString) (ht : ' ' ∉ t)
    (hr : ¬ "on this node ?".toList <+: tail) (htail : ¬ deployPrompt <:+: ' ' :: tail) :
    ¬ deployPrompt <:+: successLead ++ t ++ ' ' :: tail := by
  have h : deployPrompt = ('D' :: "eploy".toList) ++ ' ' :: "on this node ?".toList := by
    decide
  rw [h] at htail ⊢
  exact not_infix_template 'D' _ _ successLead t tail (by decide) (by decide) ht hr htail

theorem deployed_not_in (t tail : GoString) (ht : ' ' ∉ t)
    (hr : ¬ "been deployed on aleph.im".toList <+: tail)
    (htail : ¬ deployedPhrase <:+: ' ' :: tail) :
    ¬ deployedPhrase <:+: successLead ++ t ++ ' ' :: tail := by
  have h : deployedPhrase = ('h' :: "as".toList) ++ ' ' :: "been deployed on aleph.im".toList := by
    decide
  rw [h] at htail ⊢
  exact not_infix_template 'h' _ _ successLead t tail (by decide) (by decide) ht hr htail

theorem not_infix_of_contains {s substr : GoString} (h : Contains s substr = false) :
    ¬ substr <:+: s :=
  (contains_eq_false_iff s substr).1 h

/-- No rule condition holds on a proper prefix of the success message. -/
theorem successLine_prefix_quiet (t p : GoString) (ht : ' ' ∉ t)
    (hp : p <+: successLead ++ t ++ ' ' :: deployedShort) : firstMatch p = none := by
  have hinf : ∀ n : GoString, n <:+: p → n <:+: successLead ++ t ++ ' ' :: deployedShort :=
    fun n hn => hn.trans hp.isInfix
  have h1 : Contains p fetchingPhrase = false :=
    (contains_eq_false_iff _ _).2 fun hn =>
      fetching_not_in t deployedShort ht (by decide) (not_infix_of_contains (by decide))
        (hinf _ hn)
  have h2 : Contains p deployPrompt = false :=
    (contains_eq_false_iff _ _).2 fun hn =>
      prompt_not_in t deployedShort ht (by decide) (not_infix_of_contains (by decide))
        (hinf _ hn)
  have h3 : Contains p deployedPhrase = false :=
    (contains_eq_false_iff _ _).2 fun hn =>
      deployed_not_in t deployedShort ht (by decide) (not_infix_of_contains (by decide))
        (hinf _ hn)
  rw [firstMatch_eq_none_iff]
  simp [progressRule, confirmRule, successRule, h1, h2, h3]

/-- On the whole success message the success rule is the first that holds. -/
theorem successLine_firstMatch (t : GoString) (ht : ' ' ∉ t) :
    firstMatch (successLine t) = some Rule.success := by
  rw [successLine_eq]
  have h1 : Contains (successLead ++ t ++ ' ' :: deployedPhrase) fetchingPhrase = false :=
    (contains_eq_false_iff _ _).2
      (fetching_not_in t deployedPhrase ht (by decide) (not_infix_of_contains (by decide)))
  have h2 : Contains (successLead ++ t ++ ' ' :: deployedPhrase) deployPrompt = false :=
    (contains_eq_false_iff _ _).2
      (prompt_not_in t deployedPhrase ht (by decide) (not_infix_of_contains (by decide)))
  have h3 : Contains (successLead ++ t ++ ' ' :: deployedPhrase) yourInstancePhrase = true := by
    rw [contains_iff_occurs]
    have hl : successLead = yourInstancePhrase ++ [' '] := by decide
    exact ⟨[], ' ' :: (t ++ ' ' :: deployedPhrase), by rw [hl]; simp⟩
  have h4 : Contains (successLead ++ t ++ ' ' :: deployedPhrase) deployedPhrase = true := by
    rw [contains_iff_occurs]
    exact ⟨successLead ++ t ++ [' '], [], by simp⟩
  simp only [firstMatch, progressRule, confirmRule, successRule, h1, h2, h3, h4]
  simp

/-- The success block finds the token in the success message. -/
theorem successLine_extract (t : GoString) (ht : ' ' ∉ t) :
    extractVmHash (successLine t) = some t := by
  have hl : successLead = "Your".toList ++ ' ' :: (anchorWord ++ ' ' :: []) := by decide
  have hy : "Your".toList ≠ anchorWord := by decide
  rw [successLine_eq, hl, extractVmHash]
  simp only [List.append_assoc, List.cons_append, List.nil_append]
  rw [split_word _ _ (by decide), split_word _ _ (by decide), split_word _ _ ht]
  cases hs : Split deployedPhrase ' ' with
  | nil => exact absurd hs (split_ne_nil _ _)
  | cons a as => rw [scanParts, if_neg hy, scanParts, if_pos rfl]

/-- C1: for every token `t` without a space byte, feeding the text
`Your instance t has been deployed on aleph.im` one byte at a time into the read
loop, starting with an empty buffer, leaves `vmHash` equal to `t`; the only rule
that fires is the success rule, at the last byte. -/
theorem C1_token_extracted (pipeOpen : Nat → Bool) (st : LoopState) (t : GoString)
    (hline : st.line = []) (hsp : ' ' ∉ t) :
    (feedBytes pipeOpen st (successLine t)).vmHash = t ∧
      (feedBytes pipeOpen st (successLine t)).fired = st.fired ++ [Rule.success] ∧
      (feedBytes pipeOpen st (successLine t)).line = [] := by
  have hquiet : feedBytes pipeOpen st (successLead ++ t ++ ' ' :: deployedShort)
      = { st with line := st.line ++ (successLead ++ t ++ ' ' :: deployedShort) } :=
    feedBytes_quiet pipeOpen st _ fun p hp => by
      rw [hline, List.nil_append]
      exact successLine_prefix_quiet t p hsp hp
  have hstep : feedBytes pipeOpen st (successLine t)
      = successAction { st with line := successLine t } := by
    rw [successLine_eq_snoc t, feedBytes_snoc, hquiet, onChunk_eq_firstMatch]
    simp only [hline, List.nil_append]
    rw [← successLine_eq_snoc t, successLine_firstMatch t hsp]
    rfl
  rw [hstep]
  refine ⟨?_, rfl, rfl⟩
  simp [successAction, successLine_extract t hsp]

theorem C1_token_extracted_witness :
    (feedBytes (fun _ => true) LoopState.init
      "Your instance abc123 has been deployed on aleph.im".toList).vmHash = "abc123".toList :=
  (C1_token_extracted (fun _ => true) LoopState.init "abc123".toList rfl (by decide)).1

end HaasCli
